import Mathlib

/-!
Shallow embedding of `cvss.py` (a CVSS vector-string interpreter).

Python strings are modelled as `List Char`; Python dictionaries (which keep
insertion order, overwrite on duplicate keys, and raise `KeyError` on a
missing key) are modelled as ordered association lists with an
order-preserving overwrite insert and an `Option`-valued lookup.
Python slicing (which clamps out-of-range bounds and accepts negative
indices) is modelled explicitly, as are `str.find` / `str.rfind`
(which return -1 when the needle is absent) and `str.split`.
-/

namespace Cvss

/-- Characters of a string literal, the model of a Python string. -/
def strL (s : String) : List Char := s.toList

/-! ### Metric definition tables (module-level dictionaries of cvss.py) -/

def access_vector : List (List Char × String) := [
  (['L'], "Local (L): The attacker must have physical or logical access to the affected system."),
  (['A'], "Adjacent Network (A): The attacker must have access to the local network that the affected system is connected to."),
  (['N'], "Network (N): The attacker can remotely exploit the vulnerability."),
  (['P'], "The attack requires the attacker to physically touch or manipulate the vulnerable component.")]

def access_complexitiyv2 : List (List Char × String) := [
  (['L'], "Low (L): Exploiting the vulnerability does not require specilized conditions."),
  (['M'], "Medium (M): Exploiting the vulnerability requires \"somewhat specilized\" conditions."),
  (['H'], "High (H): Exploiting the vulnerability requires \"specialized\" conditions that would be difficult to find.")]

def access_complexitiyv3 : List (List Char × String) := [
  (['H'], "High (H): A successful attack depends on conditions beyond the attacker\x27s control. That is, a successful attack cannot be accomplished at will, but requires the attacker to invest in some measurable amount of effort in preparation or execution against the vulnerable component before a successful attack can be expected."),
  (['L'], "Low (L): Specialized access conditions or extenuating circumstances do not exist. An attacker can expect repeatable success against the vulnerable component.")]

def privileges_required : List (List Char × String) := [
  (['N'], "None (N): The attacker is unauthorized prior to attack, and therefore does not require any access to settings or files of the vulnerable system to carry out an attack."),
  (['L'], "Low (L): The attacker requires privileges that provide basic user capabilites that could normally affect only settings and files ownwed by a user. Alternatively, an attacker with Low privileges has the ability to access only non-sensitive resources."),
  (['H'], "High (H): The attacker requires privileges that provide significant (e.g., administrative) control over the vulnerable component allowing access to component-wide settings and files.")]

def user_interaction : List (List Char × String) := [
  (['N'], "None (N): The vulnerable system can be exploited without interaction from any user."),
  (['R'], "Required (R): Successful exploitation of this vulnerability requires a user to take some action before the vulnerability can be exploited. For example, a successful exploit may only be possible during the installation of an application by a system administrator.")]

def scope : List (List Char × String) := [
  (['U'], "Unchanged (U): An exploited vulnerability can only affect resources managed by the same security authority. In this case, the vulnerable component and the impacted component are either the same, or both are managed by the same security authority."),
  (['C'], "Changed (C): An exploited vulnerability can affect resources beyond the security scope managed by the security authority of the vulnerable component. In this case, the vulnerable component and the impacted component are different and managed by different security authorities.")]

def authentication : List (List Char × String) := [
  (['N'], "None (N): Attackers do not need to authenticate to exploit the vulnerability."),
  (['S'], "Single (S): Attackers would need to authenticate once to exploit the vulnerability."),
  (['M'], "Multiple (M): Attackers would need to authenticate two or more times exploit the vulnerability.")]

def confidentialityv2 : List (List Char × String) := [
  (['N'], "None (N): There is no confidentiality impact."),
  (['P'], "Partial (P): Access to some information is possible, but the attacker does not have control over what information is compromised."),
  (['C'], "Complete (C): All information on the system is compromised.")]

def integrityv2 : List (List Char × String) := [
  (['N'], "None (N): There is no integrity impact."),
  (['P'], "Partial (P): Modification of some information is possible, but the attacker does not have control over what information is modified."),
  (['C'], "Complete (C): The integrity of the system is totally compromised, and the attacker may change any information at will.")]

def availabilityv2 : List (List Char × String) := [
  (['N'], "None (N): There is no availablity impact."),
  (['P'], "Partial (P): The performance of the system is degraded."),
  (['C'], "Complete (C): The system is completely shut down.")]

def confidentialityv3 : List (List Char × String) := [
  (['H'], "High (H): There is total loss of confidentiality, resulting in all resources within the impacted component being divulged to the attacker."),
  (['L'], "Low (L): There is some loss of confidentiality. Access to some restricted information is obtained, but the attacker does not have control over what information is obtained, or the amount or kind of loss is constrained."),
  (['N'], "None (N): There is no loss of confidentiality within the impacted component.")]

def integrityv3 : List (List Char × String) := [
  (['H'], "High (H): There is a total loss of integrity, or a complete loss of protection."),
  (['L'], "Low (L): Modification of data is possible, but the attacker does not have control over the consequence of a modification, or the amount of modification is constrained."),
  (['N'], "None (N): There is no loss of integrity within the impacted component.")]

def availabilityv3 : List (List Char × String) := [
  (['H'], "High (H): There is total loss of availability, resulting in the attacker being able to fully deny access to resources in the impacted component; this loss is either sustained (while the attacker continues to deliver the attack) or persistent (the condition persists even after the attack has completed)."),
  (['L'], "Low (L): There is reduced performance or interruptions in resource availability"),
  (['N'], "None (N): There is no impact to availability within the impacted component.")]

/-! ### Python primitives -/

/-- Python `str.find(c)`: index of the first occurrence of `c`, or -1. -/
def pyFind (c : Char) : List Char → Int
  | [] => -1
  | x :: xs => if x = c then 0 else (if pyFind c xs ≥ 0 then pyFind c xs + 1 else -1)

/-- Python `str.rfind(c)`: index of the last occurrence of `c`, or -1. -/
def pyRfind (c : Char) : List Char → Int
  | [] => -1
  | x :: xs =>
      if pyRfind c xs ≥ 0 then pyRfind c xs + 1
      else (if x = c then 0 else -1)

/-- Python slice `s[:i]` with a possibly negative bound, clamped. -/
def pySliceTo (s : List Char) (i : Int) : List Char :=
  if i ≥ 0 then s.take i.toNat else s.take (s.length - (-i).toNat)

/-- Python slice `s[i:]` with a possibly negative bound, clamped. -/
def pySliceFrom (s : List Char) (i : Int) : List Char :=
  if i ≥ 0 then s.drop i.toNat else s.drop (s.length - (-i).toNat)

/-- Python `str.split(sep)` for a single-character separator. -/
def splitOnChar (c : Char) : List Char → List (List Char)
  | [] => [[]]
  | x :: xs =>
      if x = c then [] :: splitOnChar c xs
      else
        match splitOnChar c xs with
        | [] => [[x]]
        | h :: t => (x :: h) :: t

/-- Python `str.lower()` (ASCII inputs here). -/
def toLowerL (s : List Char) : List Char := s.map Char.toLower

/-! ### Python dict model: insertion-ordered association lists -/

/-- `d[k] = v`: overwrite in place if `k` is present, else append. -/
def dictInsert (k : List Char) (v : α) : List (List Char × α) → List (List Char × α)
  | [] => [(k, v)]
  | p :: t => if p.1 = k then (k, v) :: t else p :: dictInsert k v t

/-- Successive `d[k] = v` assignments for a list of key/value pairs. -/
def dictExtend (d : List (List Char × α)) (l : List (List Char × α)) :
    List (List Char × α) :=
  l.foldl (fun d p => dictInsert p.1 p.2 d) d

/-- A dict comprehension over a list of key/value pairs. -/
def dictOfPairs (l : List (List Char × α)) : List (List Char × α) :=
  dictExtend [] l

/-- `d[k]` as a total lookup: `none` models a Python `KeyError`. -/
def dictGet (k : List Char) : List (List Char × α) → Option α
  | [] => none
  | p :: t => if p.1 = k then some p.2 else dictGet k t

/-! ### The two parser/resolver classes -/

/-- `score[:score.rfind(':')]` and `score[score.rfind(':') + 1:]`. -/
def pySplitSeg (seg : List Char) : List Char × List Char :=
  (pySliceTo seg (pyRfind ':' seg), pySliceFrom seg (pyRfind ':' seg + 1))

/-- The key/value pairs produced inside `Cvss2.parse_score`
(`self.score[6:].split('/')`, each split at its last colon). -/
def cvss2_pairs (score : List Char) : List (List Char × List Char) :=
  (splitOnChar '/' (List.drop 6 score)).map pySplitSeg

/-- `Cvss2.parse_score`. -/
def cvss2_parse_score (score : List Char) : List (List Char × List Char) :=
  dictOfPairs (cvss2_pairs score)

/-- The key/value pairs produced inside `Cvss3.parse_score`
(`self.score[self.score.find('/') + 1:].split('/')`, each split at its
last colon). -/
def cvss3_pairs (score : List Char) : List (List Char × List Char) :=
  (splitOnChar '/' (pySliceFrom score (pyFind '/' score + 1))).map pySplitSeg

/-- `Cvss3.parse_score`. -/
def cvss3_parse_score (score : List Char) : List (List Char × List Char) :=
  dictOfPairs (cvss3_pairs score)

/-- The table `Cvss2.check_definition` indexes for a (lowercased)
identifier: its if/elif chain, each branch of which indexes one table. -/
def cvss2_table (id : List Char) : List (List Char × String) :=
  if id = strL "av" then access_vector
  else if id = strL "ac" then access_complexitiyv2
  else if id = strL "au" then authentication
  else if id = strL "c" then confidentialityv2
  else if id = strL "i" then integrityv2
  else availabilityv2

/-- `Cvss2.check_definition` (`none` models the `KeyError` raised by an
absent value code). -/
def cvss2_check_definition (id v : List Char) : Option String :=
  dictGet v (cvss2_table id)

/-- The table `Cvss3.check_definition` indexes for a (lowercased)
identifier. -/
def cvss3_table (id : List Char) : List (List Char × String) :=
  if id = strL "av" then access_vector
  else if id = strL "ac" then access_complexitiyv3
  else if id = strL "pr" then privileges_required
  else if id = strL "ui" then user_interaction
  else if id = strL "s" then scope
  else if id = strL "c" then confidentialityv3
  else if id = strL "i" then integrityv3
  else availabilityv3

/-- `Cvss3.check_definition`. -/
def cvss3_check_definition (id v : List Char) : Option String :=
  dictGet v (cvss3_table id)

/-- `Cvss2.determine_metrics`: iterate over the parsed dict in order,
`metric_definitions[identifier] = check_definition(identifier.lower(), value)`;
a `KeyError` in any step aborts the whole loop. -/
def cvss2_determine_metrics (d : List (List Char × List Char)) :
    Option (List (List Char × String)) :=
  d.foldlM
    (fun acc p => (cvss2_check_definition (toLowerL p.1) p.2).map
      (fun t => dictInsert p.1 t acc)) []

/-- `Cvss3.determine_metrics`. -/
def cvss3_determine_metrics (d : List (List Char × List Char)) :
    Option (List (List Char × String)) :=
  d.foldlM
    (fun acc p => (cvss3_check_definition (toLowerL p.1) p.2).map
      (fun t => dictInsert p.1 t acc)) []

/-- Which class `main` instantiates. -/
inductive Version
  | v2
  | v3

/-- The dispatch in `main`: `if '2' in cvss_score[:6]`. -/
def dispatch (s : List Char) : Version :=
  if '2' ∈ List.take 6 s then Version.v2 else Version.v3

/-- `main`'s parse-then-resolve pipeline on the (trimmed) argument. -/
def main_resolve (s : List Char) : Option (List (List Char × String)) :=
  match dispatch s with
  | Version.v2 => cvss2_determine_metrics (cvss2_parse_score s)
  | Version.v3 => cvss3_determine_metrics (cvss3_parse_score s)

/-! ### Spec-side descriptions (for refinement claims only) -/

/-- Spec wording: the text strictly before the last occurrence of `c`. -/
def beforeLast (c : Char) (s : List Char) : List Char :=
  (s.reverse.drop (s.reverse.indexOf c + 1)).reverse

/-- Spec wording: the text strictly after the last occurrence of `c`. -/
def afterLast (c : Char) (s : List Char) : List Char :=
  (s.reverse.take (s.reverse.indexOf c)).reverse

/-- Spec wording: everything after the first occurrence of `c`
(v3 discards up to and including the first slash). -/
def afterFirst (c : Char) (s : List Char) : List Char :=
  s.drop (s.indexOf c + 1)

/-- Per-entry relation between a parsed pair and its resolved v2 entry:
same identifier, definition obtained from the pair alone. -/
def metricRel2 (p : List Char × List Char) (q : List Char × String) : Prop :=
  q.1 = p.1 ∧ cvss2_check_definition (toLowerL p.1) p.2 = some q.2

/-- Per-entry relation between a parsed pair and its resolved v3 entry. -/
def metricRel3 (p : List Char × List Char) (q : List Char × String) : Prop :=
  q.1 = p.1 ∧ cvss3_check_definition (toLowerL p.1) p.2 = some q.2

/-! ### Dictionary lemmas -/

theorem dictGet_eq_none_iff {α : Type} [Nonempty α] (k : List Char)
    (d : List (List Char × α)) :
    dictGet k d = none ↔ k ∉ d.map Prod.fst := by
  induction d with
  | nil => simp [dictGet]
  | cons p t ih =>
      by_cases h : p.1 = k
      · simp [dictGet, h]
      · simp [dictGet, h, ih, Ne.symm h]

theorem mem_keys_of_dictGet {α : Type} [Nonempty α] {k : List Char}
    {d : List (List Char × α)} {v : α} (h : dictGet k d = some v) :
    k ∈ d.map Prod.fst := by
  by_contra hk
  rw [← dictGet_eq_none_iff] at hk
  rw [h] at hk
  exact Option.noConfusion hk

theorem dictGet_dictInsert_self {α : Type} [Nonempty α] (k : List Char) (v : α)
    (d : List (List Char × α)) : dictGet k (dictInsert k v d) = some v := by
  induction d with
  | nil => simp [dictInsert, dictGet]
  | cons p t ih =>
      by_cases h : p.1 = k
      · simp [dictInsert, h, dictGet]
      · simp [dictInsert, h, dictGet, ih]

theorem dictGet_dictInsert_ne {α : Type} [Nonempty α] {k k₁ : List Char} (v : α)
    (d : List (List Char × α)) (h : k ≠ k₁) :
    dictGet k (dictInsert k₁ v d) = dictGet k d := by
  induction d with
  | nil => simp [dictInsert, dictGet, Ne.symm h]
  | cons p t ih =>
      by_cases h₂ : p.1 = k₁
      · simp [dictInsert, h₂, dictGet, Ne.symm h, h₂.symm ▸ (Ne.symm h)]
      · simp [dictInsert, h₂, dictGet, ih]

theorem dictInsert_of_not_mem {α : Type} [Nonempty α] {k : List Char} (v : α)
    {d : List (List Char × α)} (h : k ∉ d.map Prod.fst) :
    dictInsert k v d = d ++ [(k, v)] := by
  induction d with
  | nil => simp [dictInsert]
  | cons p t ih =>
      simp only [List.map_cons, List.mem_cons] at h
      push_neg at h
      simp [dictInsert, Ne.symm h.1, ih h.2]

theorem mem_keys_dictInsert {α : Type} [Nonempty α] (k k₁ : List Char) (v : α)
    (d : List (List Char × α)) :
    k₁ ∈ (dictInsert k v d).map Prod.fst ↔ k₁ = k ∨ k₁ ∈ d.map Prod.fst := by
  induction d with
  | nil => simp [dictInsert]
  | cons p t ih =>
      rw [dictInsert]
      by_cases h : p.1 = k
      · rw [if_pos h]
        simp only [List.map_cons, List.mem_cons, h]
        tauto
      · rw [if_neg h]
        simp only [List.map_cons, List.mem_cons, ih]
        tauto

theorem nodup_keys_dictInsert {α : Type} [Nonempty α] (k : List Char) (v : α)
    {d : List (List Char × α)} (h : (d.map Prod.fst).Nodup) :
    ((dictInsert k v d).map Prod.fst).Nodup := by
  induction d with
  | nil => simp [dictInsert]
  | cons p t ih =>
      simp only [List.map_cons, List.nodup_cons] at h
      by_cases hk : p.1 = k
      · simp only [dictInsert, if_pos hk, List.map_cons, List.nodup_cons]
        exact ⟨hk ▸ h.1, h.2⟩
      · simp only [dictInsert, if_neg hk, List.map_cons, List.nodup_cons]
        refine ⟨?_, ih h.2⟩
        rw [mem_keys_dictInsert]
        push_neg
        exact ⟨hk, h.1⟩

theorem dictExtend_nil {α : Type} (d : List (List Char × α)) :
    dictExtend d [] = d := rfl

theorem dictExtend_cons {α : Type} (d : List (List Char × α)) (p : List Char × α)
    (l : List (List Char × α)) :
    dictExtend d (p :: l) = dictExtend (dictInsert p.1 p.2 d) l := rfl

theorem dictExtend_append {α : Type} (d : List (List Char × α))
    (l₁ l₂ : List (List Char × α)) :
    dictExtend d (l₁ ++ l₂) = dictExtend (dictExtend d l₁) l₂ := by
  simp [dictExtend, List.foldl_append]

theorem dictGet_dictExtend_of_not_mem {α : Type} [Nonempty α] {k : List Char}
    {l : List (List Char × α)} (h : k ∉ l.map Prod.fst)
    (d : List (List Char × α)) :
    dictGet k (dictExtend d l) = dictGet k d := by
  induction l generalizing d with
  | nil => rfl
  | cons p t ih =>
      simp only [List.map_cons, List.mem_cons] at h
      push_neg at h
      rw [dictExtend_cons, ih h.2, dictGet_dictInsert_ne _ _ h.1]

theorem dictGet_dictExtend_last {α : Type} [Nonempty α] {k : List Char} {v : α}
    {l₂ : List (List Char × α)} (h : k ∉ l₂.map Prod.fst)
    (d : List (List Char × α)) (l₁ : List (List Char × α)) :
    dictGet k (dictExtend d (l₁ ++ (k, v) :: l₂)) = some v := by
  rw [dictExtend_append, dictExtend_cons, dictGet_dictExtend_of_not_mem h,
    dictGet_dictInsert_self]

theorem mem_keys_dictExtend {α : Type} [Nonempty α] (k : List Char)
    (d l : List (List Char × α)) :
    k ∈ (dictExtend d l).map Prod.fst ↔ k ∈ l.map Prod.fst ∨ k ∈ d.map Prod.fst := by
  induction l generalizing d with
  | nil => simp [dictExtend_nil]
  | cons p t ih =>
      rw [dictExtend_cons, ih]
      simp only [List.map_cons, List.mem_cons, mem_keys_dictInsert]
      tauto

theorem nodup_keys_dictExtend {α : Type} [Nonempty α]
    {d : List (List Char × α)} (h : (d.map Prod.fst).Nodup)
    (l : List (List Char × α)) :
    ((dictExtend d l).map Prod.fst).Nodup := by
  induction l generalizing d with
  | nil => exact h
  | cons p t ih => exact ih (nodup_keys_dictInsert _ _ h)

theorem nodup_keys_dictOfPairs {α : Type} [Nonempty α]
    (l : List (List Char × α)) : ((dictOfPairs l).map Prod.fst).Nodup :=
  nodup_keys_dictExtend (by simp) l

theorem mem_keys_dictOfPairs {α : Type} [Nonempty α] (k : List Char)
    (l : List (List Char × α)) :
    k ∈ (dictOfPairs l).map Prod.fst ↔ k ∈ l.map Prod.fst := by
  rw [dictOfPairs, mem_keys_dictExtend]
  simp

theorem dictGet_dictOfPairs_last {α : Type} [Nonempty α] {k : List Char} {v : α}
    {l₂ : List (List Char × α)} (h : k ∉ l₂.map Prod.fst)
    (l₁ : List (List Char × α)) :
    dictGet k (dictOfPairs (l₁ ++ (k, v) :: l₂)) = some v :=
  dictGet_dictExtend_last h [] l₁

theorem dictExtend_eq_append {α : Type} [Nonempty α] :
    ∀ {l d : List (List Char × α)}, (l.map Prod.fst).Nodup →
    (∀ k, k ∈ l.map Prod.fst → k ∉ d.map Prod.fst) →
    dictExtend d l = d ++ l := by
  intro l
  induction l with
  | nil => intro d _ _; simp [dictExtend_nil]
  | cons p t ih =>
      intro d hnd hdisj
      simp only [List.map_cons, List.nodup_cons] at hnd
      rw [dictExtend_cons,
        dictInsert_of_not_mem _ (hdisj p.1 (by simp)), ih hnd.2 ?_]
      · simp
      · intro k hk
        simp only [List.map_append, List.mem_append]
        push_neg
        refine ⟨hdisj k (by simp [hk]), ?_⟩
        simp only [List.map_cons, List.map_nil, List.mem_cons, List.not_mem_nil,
          or_false]
        intro he
        exact hnd.1 (he ▸ hk)

theorem dictOfPairs_eq_self {α : Type} [Nonempty α]
    {l : List (List Char × α)} (h : (l.map Prod.fst).Nodup) :
    dictOfPairs l = l := by
  rw [dictOfPairs, dictExtend_eq_append h (by simp), List.nil_append]

/-! ### String-primitive lemmas -/

theorem splitOnChar_of_not_mem {c : Char} :
    ∀ {s : List Char}, c ∉ s → splitOnChar c s = [s] := by
  intro s
  induction s with
  | nil => intro _; rfl
  | cons x xs ih =>
      intro h
      simp only [List.mem_cons] at h
      push_neg at h
      rw [splitOnChar, if_neg (fun he => h.1 he.symm)]
      rw [ih h.2]

theorem splitOnChar_append {c : Char} :
    ∀ {l₁ : List Char}, c ∉ l₁ → ∀ l₂ : List Char,
    splitOnChar c (l₁ ++ c :: l₂) = l₁ :: splitOnChar c l₂ := by
  intro l₁
  induction l₁ with
  | nil =>
      intro _ l₂
      simp only [List.nil_append]
      rw [splitOnChar, if_pos rfl]
  | cons x xs ih =>
      intro h l₂
      simp only [List.mem_cons] at h
      push_neg at h
      simp only [List.cons_append]
      rw [splitOnChar, if_neg (fun he => h.1 he.symm), ih h.2 l₂]

theorem pyRfind_of_not_mem {c : Char} :
    ∀ {s : List Char}, c ∉ s → pyRfind c s = -1 := by
  intro s
  induction s with
  | nil => intro _; rfl
  | cons x xs ih =>
      intro h
      simp only [List.mem_cons] at h
      push_neg at h
      rw [pyRfind, ih h.2, if_neg (by norm_num),
        if_neg (fun he => h.1 he.symm)]

theorem pyRfind_append {c : Char} {l₂ : List Char} (h : c ∉ l₂) :
    ∀ l₁ : List Char, pyRfind c (l₁ ++ c :: l₂) = (l₁.length : Int) := by
  intro l₁
  induction l₁ with
  | nil =>
      simp only [List.nil_append]
      rw [pyRfind, pyRfind_of_not_mem h]
      simp
  | cons x xs ih =>
      simp only [List.cons_append]
      rw [pyRfind, ih, if_pos (by positivity : ((xs.length : Int) ≥ 0))]
      simp

theorem pyFind_of_not_mem {c : Char} :
    ∀ {s : List Char}, c ∉ s → pyFind c s = -1 := by
  intro s
  induction s with
  | nil => intro _; rfl
  | cons x xs ih =>
      intro h
      simp only [List.mem_cons] at h
      push_neg at h
      rw [pyFind, if_neg (fun he => h.1 he.symm), ih h.2]
      simp

theorem pyFind_append {c : Char} :
    ∀ {l₁ : List Char}, c ∉ l₁ → ∀ l₂ : List Char,
    pyFind c (l₁ ++ c :: l₂) = (l₁.length : Int) := by
  intro l₁
  induction l₁ with
  | nil =>
      intro _ l₂
      simp only [List.nil_append]
      rw [pyFind, if_pos rfl]
      rfl
  | cons x xs ih =>
      intro h l₂
      simp only [List.mem_cons] at h
      push_neg at h
      simp only [List.cons_append]
      rw [pyFind, if_neg (fun he => h.1 he.symm), ih h.2 l₂,
        if_pos (by positivity : ((xs.length : Int) ≥ 0))]
      simp

theorem pySliceTo_ofNat (s : List Char) (n : Nat) :
    pySliceTo s (n : Int) = s.take n := by
  rw [pySliceTo, if_pos (by positivity)]
  simp

theorem pySliceFrom_ofNat (s : List Char) (n : Nat) :
    pySliceFrom s (n : Int) = s.drop n := by
  rw [pySliceFrom, if_pos (by positivity)]
  simp

theorem pySplitSeg_eq {b : List Char} (h : ':' ∉ b) (a : List Char) :
    pySplitSeg (a ++ ':' :: b) = (a, b) := by
  rw [pySplitSeg, pyRfind_append h]
  have h1 : pySliceTo (a ++ ':' :: b) (a.length : Int) = a := by
    rw [pySliceTo_ofNat]
    exact List.take_left a (':' :: b)
  have h2 : pySliceFrom (a ++ ':' :: b) ((a.length : Int) + 1) = b := by
    rw [(by push_cast; ring : ((a.length : Int) + 1) = ((a.length + 1 : Nat) : Int)),
      pySliceFrom_ofNat]
    calc (a ++ ':' :: b).drop (a.length + 1)
        = (':' :: b).drop 1 := List.drop_append 1
      _ = b := rfl
  rw [h1, h2]

theorem pySplitSeg_no_colon {s : List Char} (h : ':' ∉ s) :
    pySplitSeg s = (s.dropLast, s) := by
  rw [pySplitSeg, pyRfind_of_not_mem h]
  have h1 : pySliceTo s (-1) = s.dropLast := by
    rw [pySliceTo, if_neg (by norm_num), List.dropLast_eq_take]
    rfl
  have h2 : pySliceFrom s (-1 + 1) = s := by
    rw [(by norm_num : (-1 : Int) + 1 = ((0 : Nat) : Int)), pySliceFrom_ofNat]
    rfl
  rw [h1, h2]

theorem exists_last_split {c : Char} :
    ∀ {s : List Char}, c ∈ s → ∃ a b, s = a ++ c :: b ∧ c ∉ b := by
  intro s
  induction s with
  | nil => intro h; exact absurd h (List.not_mem_nil c)
  | cons x xs ih =>
      intro h
      by_cases hx : c ∈ xs
      · obtain ⟨a, b, hab, hb⟩ := ih hx
        exact ⟨x :: a, b, by rw [hab]; rfl, hb⟩
      · have : x = c := by
          rcases List.mem_cons.1 h with h₁ | h₁
          · exact h₁.symm
          · exact absurd h₁ hx
        exact ⟨[], xs, by rw [this]; rfl, hx⟩

theorem exists_first_split {c : Char} :
    ∀ {s : List Char}, c ∈ s → ∃ a b, s = a ++ c :: b ∧ c ∉ a := by
  intro s
  induction s with
  | nil => intro h; exact absurd h (List.not_mem_nil c)
  | cons x xs ih =>
      intro h
      by_cases hx : x = c
      · exact ⟨[], xs, by rw [hx]; rfl, List.not_mem_nil c⟩
      · have : c ∈ xs := by
          rcases List.mem_cons.1 h with h₁ | h₁
          · exact absurd h₁.symm hx
          · exact h₁
        obtain ⟨a, b, hab, ha⟩ := ih this
        refine ⟨x :: a, b, by rw [hab]; rfl, ?_⟩
        simp only [List.mem_cons]
        push_neg
        exact ⟨fun he => hx he.symm, ha⟩

theorem indexOf_append_cons {c : Char} {l₁ : List Char} (h : c ∉ l₁)
    (l₂ : List Char) : (l₁ ++ c :: l₂).indexOf c = l₁.length := by
  induction l₁ with
  | nil => simp [List.indexOf_cons_self]
  | cons x xs ih =>
      simp only [List.mem_cons] at h
      push_neg at h
      simp only [List.cons_append, List.length_cons]
      rw [List.indexOf_cons_ne _ (fun he => h.1 he.symm), ih h.2]

theorem beforeLast_eq {c : Char} {b : List Char} (h : c ∉ b) (a : List Char) :
    beforeLast c (a ++ c :: b) = a := by
  rw [beforeLast]
  have hrev : (a ++ c :: b).reverse = b.reverse ++ c :: a.reverse := by
    simp
  rw [hrev, indexOf_append_cons (by simpa using h), List.length_reverse]
  have : b.length + 1 = (b.reverse ++ [c]).length := by simp
  calc ((b.reverse ++ c :: a.reverse).drop (b.length + 1)).reverse
      = (((b.reverse ++ [c]) ++ a.reverse).drop ((b.reverse ++ [c]).length)).reverse := by
        rw [← this]; simp
    _ = a := by rw [List.drop_left]; simp

theorem afterLast_eq {c : Char} {b : List Char} (h : c ∉ b) (a : List Char) :
    afterLast c (a ++ c :: b) = b := by
  rw [afterLast]
  have hrev : (a ++ c :: b).reverse = b.reverse ++ c :: a.reverse := by
    simp
  rw [hrev, indexOf_append_cons (by simpa using h), List.length_reverse]
  rw [(by simp : b.length = b.reverse.length), List.take_left]
  simp

theorem afterFirst_eq {c : Char} {a : List Char} (h : c ∉ a) (b : List Char) :
    afterFirst c (a ++ c :: b) = b := by
  rw [afterFirst, indexOf_append_cons h]
  calc (a ++ c :: b).drop (a.length + 1)
      = (c :: b).drop 1 := List.drop_append 1
    _ = b := rfl

/-! ### Resolution-loop lemmas -/

theorem foldlM_insert_none {f : List Char × List Char → Option String} :
    ∀ {l : List (List Char × List Char)} {p}, p ∈ l → f p = none →
    ∀ acc, l.foldlM
      (fun acc q => (f q).map (fun t => dictInsert q.1 t acc)) acc = none := by
  intro l
  induction l with
  | nil => intro p hp _ _; exact absurd hp (List.not_mem_nil p)
  | cons q t ih =>
      intro p hp hf acc
      rw [List.foldlM_cons]
      rcases List.mem_cons.1 hp with h | h
      · subst h
        rw [hf]
        rfl
      · cases hq : f q with
        | none => rfl
        | some d => simpa [hq] using ih h hf (dictInsert q.1 d acc)

theorem foldlM_insert_eq {f : List Char × List Char → Option String} :
    ∀ {l : List (List Char × List Char)}
      {acc : List (List Char × String)} {out : List (List Char × String)},
    (l.map Prod.fst).Nodup →
    (∀ k, k ∈ l.map Prod.fst → k ∉ acc.map Prod.fst) →
    l.foldlM (fun acc q => (f q).map (fun t => dictInsert q.1 t acc)) acc
      = some out →
    ∃ tail, out = acc ++ tail ∧
      List.Forall₂ (fun p q => q.1 = p.1 ∧ f p = some q.2) l tail := by
  intro l
  induction l with
  | nil =>
      intro acc out _ _ h
      rw [List.foldlM_nil] at h
      refine ⟨[], ?_, List.Forall₂.nil⟩
      simpa using (Option.some_inj.1 h).symm
  | cons p t ih =>
      intro acc out hnd hdisj h
      rw [List.foldlM_cons] at h
      cases hf : f p with
      | none => rw [hf] at h; exact Option.noConfusion h
      | some d =>
          rw [hf] at h
          simp only [Option.map_some', Option.bind_eq_bind, Option.some_bind] at h
          rw [dictInsert_of_not_mem d (hdisj p.1 (by simp))] at h
          simp only [List.map_cons, List.nodup_cons] at hnd
          have hdisj' : ∀ k, k ∈ t.map Prod.fst →
              k ∉ (acc ++ [(p.1, d)]).map Prod.fst := by
            intro k hk
            simp only [List.map_append, List.mem_append, List.map_cons,
              List.map_nil, List.mem_cons, List.not_mem_nil, or_false]
            push_neg
            refine ⟨hdisj k (by simp [hk]), ?_⟩
            intro he
            exact hnd.1 (he ▸ hk)
          obtain ⟨tail, htail, hrel⟩ := ih hnd.2 hdisj' h
          refine ⟨(p.1, d) :: tail, ?_, ?_⟩
          · rw [htail]
            simp
          · exact List.Forall₂.cons ⟨rfl, hf⟩ hrel

theorem forall₂_fst_eq {R : List Char × List Char → List Char × String → Prop}
    (hR : ∀ p q, R p q → q.1 = p.1) :
    ∀ {l : List (List Char × List Char)} {out : List (List Char × String)},
    List.Forall₂ R l out → out.map Prod.fst = l.map Prod.fst := by
  intro l out h
  induction h with
  | nil => rfl
  | cons hpq _ ih =>
      simp only [List.map_cons, ih]
      rw [hR _ _ hpq]

theorem count_keys_eq_one {k : List Char} : ∀ {l : List (List Char)},
    l.Nodup → k ∈ l → l.count k = 1 := by
  intro l
  induction l with
  | nil => intro _ hm; exact absurd hm (List.not_mem_nil k)
  | cons a t ih =>
      intro hn hm
      simp only [List.nodup_cons] at hn
      rcases List.mem_cons.1 hm with h | h
      · subst h
        rw [List.count_cons_self, List.count_eq_zero_of_not_mem hn.1]
      · have hka : k ≠ a := fun he => hn.1 (he ▸ h)
        rw [List.count_cons_of_ne hka, ih hn.2 h]

/-! ### Claim theorems -/

/-- C2: for every trimmed input string, `main` selects the version-2
parser/resolver pair (`Cvss2`) if and only if the character `2` occurs among
the first six characters of the string; otherwise it selects the version-3
pair (`Cvss3`), and the selected pair is the one whose `parse_score` and
`determine_metrics` run. -/
theorem claim2_dispatch (s : List Char) :
    (dispatch s = Version.v2 ↔ '2' ∈ List.take 6 s) ∧
    (dispatch s = Version.v3 ↔ '2' ∉ List.take 6 s) ∧
    ('2' ∈ List.take 6 s →
      main_resolve s = cvss2_determine_metrics (cvss2_parse_score s)) ∧
    ('2' ∉ List.take 6 s →
      main_resolve s = cvss3_determine_metrics (cvss3_parse_score s)) := by
  by_cases h : '2' ∈ List.take 6 s <;>
    simp [dispatch, main_resolve, h]

/-- C2 witness: the two example vectors of the source are dispatched to
their versions. -/
theorem claim2_dispatch_witness :
    main_resolve (strL "CVSS2#AV:N/AC:L/Au:N/C:C/I:C/A:C") =
      cvss2_determine_metrics
        (cvss2_parse_score (strL "CVSS2#AV:N/AC:L/Au:N/C:C/I:C/A:C")) ∧
    main_resolve (strL "CVSS:3.1/AV:N/AC:L/PR:H/UI:N/S:U/C:L/I:L/A:N") =
      cvss3_determine_metrics
        (cvss3_parse_score (strL "CVSS:3.1/AV:N/AC:L/PR:H/UI:N/S:U/C:L/I:L/A:N")) :=
  ⟨(claim2_dispatch (strL "CVSS2#AV:N/AC:L/Au:N/C:C/I:C/A:C")).2.2.1 (by decide),
   (claim2_dispatch (strL "CVSS:3.1/AV:N/AC:L/PR:H/UI:N/S:U/C:L/I:L/A:N")).2.2.2
     (by decide)⟩

/-- C9: `parse_score` is total (in this embedding it returns a mapping by
construction, matching Python slicing and `rfind`, which never raise): a
segment with no colon is split by the `rfind = -1` slices into the segment
minus its final character (identifier) and the entire segment (value), and a
v2 input shorter than 6 characters parses to the mapping of the empty string
to the empty string. -/
theorem claim9_parse_total (seg s : List Char) :
    (':' ∉ seg → pyRfind ':' seg = -1) ∧
    (':' ∉ seg → pySplitSeg seg = (seg.dropLast, seg)) ∧
    (s.length < 6 → cvss2_parse_score s = [([], [])]) := by
  refine ⟨fun h => pyRfind_of_not_mem h, fun h => pySplitSeg_no_colon h, fun h => ?_⟩
  rw [cvss2_parse_score, cvss2_pairs, List.drop_eq_nil_of_le (le_of_lt h)]
  rfl

/-- C9 witness: the colon-free segment `AVN` and the 2-character input
`CV`. -/
theorem claim9_parse_total_witness :
    pyRfind ':' (strL "AVN") = -1 ∧
    pySplitSeg (strL "AVN") = ((strL "AVN").dropLast, strL "AVN") ∧
    cvss2_parse_score (strL "CV") = [([], [])] :=
  ⟨(claim9_parse_total (strL "AVN") (strL "CV")).1 (by decide),
   (claim9_parse_total (strL "AVN") (strL "CV")).2.1 (by decide),
   (claim9_parse_total (strL "AVN") (strL "CV")).2.2 (by decide)⟩

/-- C1 counterexample: the claim says parsing fails with an error when a
segment contains no colon or the prefix length exceeds the string length; in
fact both parsers return a normal mapping on exactly such inputs (Python
slicing and `rfind` never raise there). -/
theorem claim1_counterexample :
    cvss2_parse_score (strL "CVSS2#AVN") = [(strL "AV", strL "AVN")] ∧
    cvss3_parse_score (strL "CVSS:3.1/AVN") = [(strL "AV", strL "AVN")] ∧
    cvss2_parse_score (strL "CV") = [([], [])] := by
  decide

/-- C1 amended: parsing never fails; a slash-separated segment that contains
no colon contributes the pair (segment minus its final character, whole
segment) to the parsed pairs, for both versions. -/
theorem claim1_amended :
    (∀ s seg : List Char, seg ∈ splitOnChar '/' (List.drop 6 s) →
      ':' ∉ seg → (seg.dropLast, seg) ∈ cvss2_pairs s) ∧
    (∀ s seg : List Char,
      seg ∈ splitOnChar '/' (pySliceFrom s (pyFind '/' s + 1)) →
      ':' ∉ seg → (seg.dropLast, seg) ∈ cvss3_pairs s) := by
  constructor <;> intro s seg hseg hc
  · rw [cvss2_pairs, ← pySplitSeg_no_colon hc]
    exact List.mem_map_of_mem pySplitSeg hseg
  · rw [cvss3_pairs, ← pySplitSeg_no_colon hc]
    exact List.mem_map_of_mem pySplitSeg hseg

/-- C1 amended witness: the colon-free segment `AVN` in a v2 and a v3
vector. -/
theorem claim1_amended_witness :
    ((strL "AVN").dropLast, strL "AVN") ∈ cvss2_pairs (strL "CVSS2#AVN") ∧
    ((strL "AVN").dropLast, strL "AVN") ∈ cvss3_pairs (strL "CVSS:3.1/AVN") :=
  ⟨claim1_amended.1 (strL "CVSS2#AVN") (strL "AVN") (by decide) (by decide),
   claim1_amended.2 (strL "CVSS:3.1/AVN") (strL "AVN") (by decide) (by decide)⟩

/-- C5: when the segments of an input yield a duplicate identifier, the
mapping returned by `parse_score` (v2 or v3) contains that identifier
exactly once and binds it to the value of its last occurrence, with no
error. -/
theorem claim5_duplicate_last_wins (s k : List Char) :
    (2 ≤ ((cvss2_pairs s).map Prod.fst).count k →
      ((cvss2_parse_score s).map Prod.fst).count k = 1 ∧
      ∀ v l₁ l₂, cvss2_pairs s = l₁ ++ (k, v) :: l₂ → k ∉ l₂.map Prod.fst →
        dictGet k (cvss2_parse_score s) = some v) ∧
    (2 ≤ ((cvss3_pairs s).map Prod.fst).count k →
      ((cvss3_parse_score s).map Prod.fst).count k = 1 ∧
      ∀ v l₁ l₂, cvss3_pairs s = l₁ ++ (k, v) :: l₂ → k ∉ l₂.map Prod.fst →
        dictGet k (cvss3_parse_score s) = some v) := by
  constructor <;> intro hdup
  · have hmem : k ∈ (cvss2_pairs s).map Prod.fst := by
      by_contra hk
      rw [List.count_eq_zero_of_not_mem hk] at hdup
      omega
    refine ⟨count_keys_eq_one (nodup_keys_dictOfPairs _)
      ((mem_keys_dictOfPairs _ _).2 hmem), ?_⟩
    intro v l₁ l₂ hdec hl₂
    rw [cvss2_parse_score, hdec]
    exact dictGet_dictOfPairs_last hl₂ l₁
  · have hmem : k ∈ (cvss3_pairs s).map Prod.fst := by
      by_contra hk
      rw [List.count_eq_zero_of_not_mem hk] at hdup
      omega
    refine ⟨count_keys_eq_one (nodup_keys_dictOfPairs _)
      ((mem_keys_dictOfPairs _ _).2 hmem), ?_⟩
    intro v l₁ l₂ hdec hl₂
    rw [cvss3_parse_score, hdec]
    exact dictGet_dictOfPairs_last hl₂ l₁

/-- C5 witness: the duplicated identifier `C` in a v2 and a v3 vector keeps
only its last value. -/
theorem claim5_duplicate_last_wins_witness :
    ((cvss2_parse_score (strL "CVSS2#C:N/C:P")).map Prod.fst).count (strL "C") = 1 ∧
    dictGet (strL "C") (cvss2_parse_score (strL "CVSS2#C:N/C:P")) = some ['P'] ∧
    ((cvss3_parse_score (strL "CVSS:3.1/C:L/C:H")).map Prod.fst).count (strL "C") = 1 ∧
    dictGet (strL "C") (cvss3_parse_score (strL "CVSS:3.1/C:L/C:H")) = some ['H'] :=
  ⟨((claim5_duplicate_last_wins (strL "CVSS2#C:N/C:P") (strL "C")).1 (by decide)).1,
   ((claim5_duplicate_last_wins (strL "CVSS2#C:N/C:P") (strL "C")).1 (by decide)).2
     ['P'] [(strL "C", ['N'])] [] (by decide) (by decide),
   ((claim5_duplicate_last_wins (strL "CVSS:3.1/C:L/C:H") (strL "C")).2 (by decide)).1,
   ((claim5_duplicate_last_wins (strL "CVSS:3.1/C:L/C:H") (strL "C")).2 (by decide)).2
     ['H'] [(strL "C", ['L'])] [] (by decide) (by decide)⟩

/-- C7: a value code absent from the table selected for an identifier makes
`check_definition` return a lookup error (`none`), never a definition, and
`determine_metrics` propagates that error for any parsed mapping containing
the pair. -/
theorem claim7_lookup_error :
    (∀ id v : List Char, v ∉ (cvss2_table id).map Prod.fst →
      cvss2_check_definition id v = none) ∧
    (∀ id v : List Char, v ∉ (cvss3_table id).map Prod.fst →
      cvss3_check_definition id v = none) ∧
    (∀ (d : List (List Char × List Char)) id v, (id, v) ∈ d →
      cvss2_check_definition (toLowerL id) v = none →
      cvss2_determine_metrics d = none) ∧
    (∀ (d : List (List Char × List Char)) id v, (id, v) ∈ d →
      cvss3_check_definition (toLowerL id) v = none →
      cvss3_determine_metrics d = none) := by
  refine ⟨?_, ?_, ?_, ?_⟩
  · intro id v h
    exact (dictGet_eq_none_iff v (cvss2_table id)).2 h
  · intro id v h
    exact (dictGet_eq_none_iff v (cvss3_table id)).2 h
  · intro d id v hmem hnone
    exact foldlM_insert_none hmem hnone []
  · intro d id v hmem hnone
    exact foldlM_insert_none hmem hnone []

/-- C7 witness: the invalid value code `C:Z` yields a lookup error, not a
definition, in both versions. -/
theorem claim7_lookup_error_witness :
    cvss2_check_definition (strL "c") (strL "Z") = none ∧
    cvss3_check_definition (strL "c") (strL "Z") = none ∧
    cvss2_determine_metrics [(strL "C", strL "Z")] = none ∧
    cvss3_determine_metrics [(strL "C", strL "Z")] = none :=
  ⟨claim7_lookup_error.1 (strL "c") (strL "Z") (by decide),
   claim7_lookup_error.2.1 (strL "c") (strL "Z") (by decide),
   claim7_lookup_error.2.2.1 [(strL "C", strL "Z")] (strL "C") (strL "Z")
     (by decide) (claim7_lookup_error.1 (strL "c") (strL "Z") (by decide)),
   claim7_lookup_error.2.2.2 [(strL "C", strL "Z")] (strL "C") (strL "Z")
     (by decide) (claim7_lookup_error.2.1 (strL "c") (strL "Z") (by decide))⟩

theorem pySliceFrom_append_cons (c : Char) (a b : List Char) :
    pySliceFrom (a ++ c :: b) ((a.length : Int) + 1) = b := by
  rw [(by push_cast; ring : ((a.length : Int) + 1) = ((a.length + 1 : Nat) : Int)),
    pySliceFrom_ofNat]
  calc (a ++ c :: b).drop (a.length + 1)
      = (c :: b).drop 1 := List.drop_append 1
    _ = b := rfl

/-- C6: `check_definition` receives the lowercased identifier (from
`determine_metrics`) and dispatches on it: `av` to the shared access-vector
table, `ac` to the version-specific access-complexity table, `au` (v2) to
authentication, `pr`/`ui`/`s` (v3) to privileges-required, user-interaction
and scope, `c` and `i` to the version-specific confidentiality and integrity
tables, and every other identifier to the version-specific availability
table. -/
theorem claim6_check_dispatch :
    (∀ id v : List Char, toLowerL id = strL "av" →
      cvss2_check_definition (toLowerL id) v = dictGet v access_vector) ∧
    (∀ id v : List Char, toLowerL id = strL "ac" →
      cvss2_check_definition (toLowerL id) v = dictGet v access_complexitiyv2) ∧
    (∀ id v : List Char, toLowerL id = strL "au" →
      cvss2_check_definition (toLowerL id) v = dictGet v authentication) ∧
    (∀ id v : List Char, toLowerL id = strL "c" →
      cvss2_check_definition (toLowerL id) v = dictGet v confidentialityv2) ∧
    (∀ id v : List Char, toLowerL id = strL "i" →
      cvss2_check_definition (toLowerL id) v = dictGet v integrityv2) ∧
    (∀ id v : List Char,
      toLowerL id ∉ [strL "av", strL "ac", strL "au", strL "c", strL "i"] →
      cvss2_check_definition (toLowerL id) v = dictGet v availabilityv2) ∧
    (∀ id v : List Char, toLowerL id = strL "av" →
      cvss3_check_definition (toLowerL id) v = dictGet v access_vector) ∧
    (∀ id v : List Char, toLowerL id = strL "ac" →
      cvss3_check_definition (toLowerL id) v = dictGet v access_complexitiyv3) ∧
    (∀ id v : List Char, toLowerL id = strL "pr" →
      cvss3_check_definition (toLowerL id) v = dictGet v privileges_required) ∧
    (∀ id v : List Char, toLowerL id = strL "ui" →
      cvss3_check_definition (toLowerL id) v = dictGet v user_interaction) ∧
    (∀ id v : List Char, toLowerL id = strL "s" →
      cvss3_check_definition (toLowerL id) v = dictGet v scope) ∧
    (∀ id v : List Char, toLowerL id = strL "c" →
      cvss3_check_definition (toLowerL id) v = dictGet v confidentialityv3) ∧
    (∀ id v : List Char, toLowerL id = strL "i" →
      cvss3_check_definition (toLowerL id) v = dictGet v integrityv3) ∧
    (∀ id v : List Char,
      toLowerL id ∉ [strL "av", strL "ac", strL "pr", strL "ui", strL "s",
        strL "c", strL "i"] →
      cvss3_check_definition (toLowerL id) v = dictGet v availabilityv3) := by
  refine ⟨?_, ?_, ?_, ?_, ?_, ?_, ?_, ?_, ?_, ?_, ?_, ?_, ?_, ?_⟩ <;>
    intro id v h
  · rw [h]; rfl
  · rw [h]; rfl
  · rw [h]; rfl
  · rw [h]; rfl
  · rw [h]; rfl
  · simp only [List.mem_cons, List.not_mem_nil, or_false] at h
    push_neg at h
    obtain ⟨h1, h2, h3, h4, h5⟩ := h
    simp only [cvss2_check_definition, cvss2_table]
    rw [if_neg h1, if_neg h2, if_neg h3, if_neg h4, if_neg h5]
  · rw [h]; rfl
  · rw [h]; rfl
  · rw [h]; rfl
  · rw [h]; rfl
  · rw [h]; rfl
  · rw [h]; rfl
  · rw [h]; rfl
  · simp only [List.mem_cons, List.not_mem_nil, or_false] at h
    push_neg at h
    obtain ⟨h1, h2, h3, h4, h5, h6, h7⟩ := h
    simp only [cvss3_check_definition, cvss3_table]
    rw [if_neg h1, if_neg h2, if_neg h3, if_neg h4, if_neg h5, if_neg h6,
      if_neg h7]

/-- C6 witness: one concrete identifier per dispatch branch, including a
fallback identifier outside every known category. -/
theorem claim6_check_dispatch_witness :
    (cvss2_check_definition (toLowerL (strL "AV")) ['N'] = dictGet ['N'] access_vector) ∧
    (cvss2_check_definition (toLowerL (strL "AC")) ['L'] = dictGet ['L'] access_complexitiyv2) ∧
    (cvss2_check_definition (toLowerL (strL "Au")) ['N'] = dictGet ['N'] authentication) ∧
    (cvss2_check_definition (toLowerL (strL "C")) ['C'] = dictGet ['C'] confidentialityv2) ∧
    (cvss2_check_definition (toLowerL (strL "I")) ['C'] = dictGet ['C'] integrityv2) ∧
    (cvss2_check_definition (toLowerL (strL "A")) ['C'] = dictGet ['C'] availabilityv2) ∧
    (cvss3_check_definition (toLowerL (strL "AV")) ['N'] = dictGet ['N'] access_vector) ∧
    (cvss3_check_definition (toLowerL (strL "AC")) ['L'] = dictGet ['L'] access_complexitiyv3) ∧
    (cvss3_check_definition (toLowerL (strL "PR")) ['H'] = dictGet ['H'] privileges_required) ∧
    (cvss3_check_definition (toLowerL (strL "UI")) ['N'] = dictGet ['N'] user_interaction) ∧
    (cvss3_check_definition (toLowerL (strL "S")) ['U'] = dictGet ['U'] scope) ∧
    (cvss3_check_definition (toLowerL (strL "C")) ['L'] = dictGet ['L'] confidentialityv3) ∧
    (cvss3_check_definition (toLowerL (strL "I")) ['L'] = dictGet ['L'] integrityv3) ∧
    (cvss3_check_definition (toLowerL (strL "A")) ['N'] = dictGet ['N'] availabilityv3) :=
  ⟨claim6_check_dispatch.1 (strL "AV") ['N'] (by decide),
   claim6_check_dispatch.2.1 (strL "AC") ['L'] (by decide),
   claim6_check_dispatch.2.2.1 (strL "Au") ['N'] (by decide),
   claim6_check_dispatch.2.2.2.1 (strL "C") ['C'] (by decide),
   claim6_check_dispatch.2.2.2.2.1 (strL "I") ['C'] (by decide),
   claim6_check_dispatch.2.2.2.2.2.1 (strL "A") ['C'] (by decide),
   claim6_check_dispatch.2.2.2.2.2.2.1 (strL "AV") ['N'] (by decide),
   claim6_check_dispatch.2.2.2.2.2.2.2.1 (strL "AC") ['L'] (by decide),
   claim6_check_dispatch.2.2.2.2.2.2.2.2.1 (strL "PR") ['H'] (by decide),
   claim6_check_dispatch.2.2.2.2.2.2.2.2.2.1 (strL "UI") ['N'] (by decide),
   claim6_check_dispatch.2.2.2.2.2.2.2.2.2.2.1 (strL "S") ['U'] (by decide),
   claim6_check_dispatch.2.2.2.2.2.2.2.2.2.2.2.1 (strL "C") ['L'] (by decide),
   claim6_check_dispatch.2.2.2.2.2.2.2.2.2.2.2.2.1 (strL "I") ['L'] (by decide),
   claim6_check_dispatch.2.2.2.2.2.2.2.2.2.2.2.2.2 (strL "A") ['N'] (by decide)⟩

/-- C3: for every version-2 input whose remainder after the fixed 6-character
prefix consists of colon-containing slash-segments, `Cvss2.parse_score`
discards exactly the first 6 characters, splits on `/`, and maps each
segment to (text before its last colon, text after its last colon). -/
theorem claim3_parse2_refines (s : List Char)
    (h : ∀ seg ∈ splitOnChar '/' (List.drop 6 s), ':' ∈ seg) :
    cvss2_parse_score s =
      dictOfPairs ((splitOnChar '/' (List.drop 6 s)).map
        (fun seg => (beforeLast ':' seg, afterLast ':' seg))) := by
  rw [cvss2_parse_score, cvss2_pairs]
  congr 1
  apply List.map_congr_left
  intro seg hseg
  obtain ⟨a, b, hab, hb⟩ := exists_last_split (h seg hseg)
  rw [hab, pySplitSeg_eq hb, beforeLast_eq hb, afterLast_eq hb]

/-- C3 witness: the example v2 vector of the source. -/
theorem claim3_parse2_refines_witness :
    cvss2_parse_score (strL "CVSS2#AV:N/AC:L/Au:N/C:C/I:C/A:C") =
      dictOfPairs ((splitOnChar '/'
          (List.drop 6 (strL "CVSS2#AV:N/AC:L/Au:N/C:C/I:C/A:C"))).map
        (fun seg => (beforeLast ':' seg, afterLast ':' seg))) :=
  claim3_parse2_refines (strL "CVSS2#AV:N/AC:L/Au:N/C:C/I:C/A:C") (by decide)

/-- C4: for every version-3 input that contains a slash and whose remainder
after the first slash consists of colon-containing slash-segments,
`Cvss3.parse_score` discards everything up to and including the first `/`,
splits on `/`, and maps each segment to (text before its last colon, text
after its last colon). -/
theorem claim4_parse3_refines (s : List Char) (hs : '/' ∈ s)
    (h : ∀ seg ∈ splitOnChar '/' (afterFirst '/' s), ':' ∈ seg) :
    cvss3_parse_score s =
      dictOfPairs ((splitOnChar '/' (afterFirst '/' s)).map
        (fun seg => (beforeLast ':' seg, afterLast ':' seg))) := by
  obtain ⟨a, b, hab, ha⟩ := exists_first_split hs
  have hrem : pySliceFrom s (pyFind '/' s + 1) = afterFirst '/' s := by
    rw [hab, pyFind_append ha, pySliceFrom_append_cons, afterFirst_eq ha]
  rw [cvss3_parse_score, cvss3_pairs, hrem]
  congr 1
  apply List.map_congr_left
  intro seg hseg
  obtain ⟨a', b', hab', hb'⟩ := exists_last_split (h seg hseg)
  rw [hab', pySplitSeg_eq hb', beforeLast_eq hb', afterLast_eq hb']

/-- C4 witness: the example v3 vector of the source. -/
theorem claim4_parse3_refines_witness :
    cvss3_parse_score (strL "CVSS:3.1/AV:N/AC:L/PR:H/UI:N/S:U/C:L/I:L/A:N") =
      dictOfPairs ((splitOnChar '/'
          (afterFirst '/' (strL "CVSS:3.1/AV:N/AC:L/PR:H/UI:N/S:U/C:L/I:L/A:N"))).map
        (fun seg => (beforeLast ':' seg, afterLast ':' seg))) :=
  claim4_parse3_refines (strL "CVSS:3.1/AV:N/AC:L/PR:H/UI:N/S:U/C:L/I:L/A:N")
    (by decide) (by decide)

/-- C10: whenever resolution of a parsed mapping succeeds,
`determine_metrics` (v2 and v3) returns a mapping with exactly the keys of
its input, in the same order and with original case preserved, and each
key's definition comes from `check_definition` applied to that key's
lowercased identifier and its value alone. -/
theorem claim10_determine_keys :
    (∀ (s : List Char) (out : List (List Char × String)),
      cvss2_determine_metrics (cvss2_parse_score s) = some out →
      List.Forall₂ metricRel2 (cvss2_parse_score s) out ∧
      out.map Prod.fst = (cvss2_parse_score s).map Prod.fst) ∧
    (∀ (s : List Char) (out : List (List Char × String)),
      cvss3_determine_metrics (cvss3_parse_score s) = some out →
      List.Forall₂ metricRel3 (cvss3_parse_score s) out ∧
      out.map Prod.fst = (cvss3_parse_score s).map Prod.fst) := by
  constructor <;> intro s out h
  · rw [cvss2_determine_metrics] at h
    obtain ⟨tail, htail, hrel⟩ :=
      foldlM_insert_eq (nodup_keys_dictOfPairs (cvss2_pairs s))
        (by intro k _ hk; exact absurd hk (List.not_mem_nil k)) h
    rw [List.nil_append] at htail
    subst htail
    exact ⟨hrel, forall₂_fst_eq (fun p q hpq => hpq.1) hrel⟩
  · rw [cvss3_determine_metrics] at h
    obtain ⟨tail, htail, hrel⟩ :=
      foldlM_insert_eq (nodup_keys_dictOfPairs (cvss3_pairs s))
        (by intro k _ hk; exact absurd hk (List.not_mem_nil k)) h
    rw [List.nil_append] at htail
    subst htail
    exact ⟨hrel, forall₂_fst_eq (fun p q hpq => hpq.1) hrel⟩

/-- C10 witness: the two example vectors of the source resolve with their
parsed key lists preserved. -/
theorem claim10_determine_keys_witness :
    (List.Forall₂ metricRel2
      (cvss2_parse_score (strL "CVSS2#AV:N/AC:L/Au:N/C:C/I:C/A:C"))
      ((cvss2_determine_metrics
        (cvss2_parse_score (strL "CVSS2#AV:N/AC:L/Au:N/C:C/I:C/A:C"))).getD []) ∧
     ((cvss2_determine_metrics
        (cvss2_parse_score (strL "CVSS2#AV:N/AC:L/Au:N/C:C/I:C/A:C"))).getD []).map
          Prod.fst =
       (cvss2_parse_score (strL "CVSS2#AV:N/AC:L/Au:N/C:C/I:C/A:C")).map Prod.fst) ∧
    (List.Forall₂ metricRel3
      (cvss3_parse_score (strL "CVSS:3.1/AV:N/AC:L/PR:H/UI:N/S:U/C:L/I:L/A:N"))
      ((cvss3_determine_metrics
        (cvss3_parse_score (strL "CVSS:3.1/AV:N/AC:L/PR:H/UI:N/S:U/C:L/I:L/A:N"))).getD []) ∧
     ((cvss3_determine_metrics
        (cvss3_parse_score (strL "CVSS:3.1/AV:N/AC:L/PR:H/UI:N/S:U/C:L/I:L/A:N"))).getD []).map
          Prod.fst =
       (cvss3_parse_score (strL "CVSS:3.1/AV:N/AC:L/PR:H/UI:N/S:U/C:L/I:L/A:N")).map
         Prod.fst) :=
  ⟨claim10_determine_keys.1 (strL "CVSS2#AV:N/AC:L/Au:N/C:C/I:C/A:C")
      ((cvss2_determine_metrics
        (cvss2_parse_score (strL "CVSS2#AV:N/AC:L/Au:N/C:C/I:C/A:C"))).getD []) rfl,
   claim10_determine_keys.2 (strL "CVSS:3.1/AV:N/AC:L/PR:H/UI:N/S:U/C:L/I:L/A:N")
      ((cvss3_determine_metrics
        (cvss3_parse_score (strL "CVSS:3.1/AV:N/AC:L/PR:H/UI:N/S:U/C:L/I:L/A:N"))).getD [])
      rfl⟩

theorem key_not_sep {t : List (List Char × String)} {x : Char} {d : String}
    (h : dictGet [x] t = some d)
    (hall : ∀ k ∈ t.map Prod.fst, '/' ∉ k ∧ ':' ∉ k) :
    x ≠ '/' ∧ x ≠ ':' := by
  have hm := mem_keys_of_dictGet h
  obtain ⟨h1, h2⟩ := hall [x] hm
  refine ⟨fun he => h1 ?_, fun he => h2 ?_⟩ <;> subst he <;>
    exact List.mem_singleton.2 rfl

/-- C8: every valid v2 vector `CVSS2#AV:x/AC:y/Au:z/C:p/I:q/A:r` whose value
codes are present in the relevant v2 tables parses and resolves to exactly
six definitions, one per identifier, each equal to the entry of the
corresponding v2 table. -/
theorem claim8_v2_full_vector (x y z w u r : Char) (dx dy dz dp dq dr : String)
    (hx : dictGet [x] access_vector = some dx)
    (hy : dictGet [y] access_complexitiyv2 = some dy)
    (hz : dictGet [z] authentication = some dz)
    (hp : dictGet [w] confidentialityv2 = some dp)
    (hq : dictGet [u] integrityv2 = some dq)
    (hr : dictGet [r] availabilityv2 = some dr) :
    cvss2_determine_metrics (cvss2_parse_score
      (strL "CVSS2#AV:" ++ [x] ++ strL "/AC:" ++ [y] ++ strL "/Au:" ++ [z] ++
       strL "/C:" ++ [w] ++ strL "/I:" ++ [u] ++ strL "/A:" ++ [r])) =
    some [(strL "AV", dx), (strL "AC", dy), (strL "Au", dz),
          (strL "C", dp), (strL "I", dq), (strL "A", dr)] := by
  have hx' := key_not_sep hx (by decide)
  have hy' := key_not_sep hy (by decide)
  have hz' := key_not_sep hz (by decide)
  have hp' := key_not_sep hp (by decide)
  have hq' := key_not_sep hq (by decide)
  have hr' := key_not_sep hr (by decide)
  have hform : strL "CVSS2#AV:" ++ [x] ++ strL "/AC:" ++ [y] ++ strL "/Au:" ++ [z] ++
       strL "/C:" ++ [w] ++ strL "/I:" ++ [u] ++ strL "/A:" ++ [r]
      = strL "CVSS2#" ++
        ((strL "AV" ++ ':' :: [x]) ++ '/' ::
        ((strL "AC" ++ ':' :: [y]) ++ '/' ::
        ((strL "Au" ++ ':' :: [z]) ++ '/' ::
        ((strL "C" ++ ':' :: [w]) ++ '/' ::
        ((strL "I" ++ ':' :: [u]) ++ '/' ::
         (strL "A" ++ ':' :: [r])))))) := by
    simp [strL]
  have hdrop : ∀ l : List Char, List.drop 6 (strL "CVSS2#" ++ l) = l := by
    intro l
    rw [(by decide : (6 : Nat) = (strL "CVSS2#").length), List.drop_left]
  have hnm : ∀ (a : List Char) (c : Char), '/' ∉ a → c ≠ '/' →
      '/' ∉ a ++ ':' :: [c] := by
    intro a c ha hc hmem
    rcases List.mem_append.1 hmem with h | h
    · exact ha h
    · rcases List.mem_cons.1 h with h | h
      · exact absurd h.symm (by decide : (':' : Char) ≠ '/')
      · rcases List.mem_cons.1 h with h | h
        · exact hc h.symm
        · exact absurd h (List.not_mem_nil _)
  have hsplit : splitOnChar '/'
      ((strL "AV" ++ ':' :: [x]) ++ '/' ::
        ((strL "AC" ++ ':' :: [y]) ++ '/' ::
        ((strL "Au" ++ ':' :: [z]) ++ '/' ::
        ((strL "C" ++ ':' :: [w]) ++ '/' ::
        ((strL "I" ++ ':' :: [u]) ++ '/' ::
         (strL "A" ++ ':' :: [r]))))))
      = [strL "AV" ++ ':' :: [x], strL "AC" ++ ':' :: [y],
         strL "Au" ++ ':' :: [z], strL "C" ++ ':' :: [w],
         strL "I" ++ ':' :: [u], strL "A" ++ ':' :: [r]] := by
    rw [splitOnChar_append (hnm _ _ (by decide) hx'.1),
        splitOnChar_append (hnm _ _ (by decide) hy'.1),
        splitOnChar_append (hnm _ _ (by decide) hz'.1),
        splitOnChar_append (hnm _ _ (by decide) hp'.1),
        splitOnChar_append (hnm _ _ (by decide) hq'.1),
        splitOnChar_of_not_mem (hnm _ _ (by decide) hr'.1)]
  have hone : ∀ c : Char, c ≠ ':' → (':' : Char) ∉ [c] := by
    intro c hc hmem
    rcases List.mem_cons.1 hmem with h | h
    · exact hc h.symm
    · exact absurd h (List.not_mem_nil _)
  have hpairs : cvss2_pairs
      (strL "CVSS2#AV:" ++ [x] ++ strL "/AC:" ++ [y] ++ strL "/Au:" ++ [z] ++
       strL "/C:" ++ [w] ++ strL "/I:" ++ [u] ++ strL "/A:" ++ [r])
      = [(strL "AV", [x]), (strL "AC", [y]), (strL "Au", [z]),
         (strL "C", [w]), (strL "I", [u]), (strL "A", [r])] := by
    rw [cvss2_pairs, hform, hdrop, hsplit]
    simp only [List.map_cons, List.map_nil,
      pySplitSeg_eq (hone x hx'.2), pySplitSeg_eq (hone y hy'.2),
      pySplitSeg_eq (hone z hz'.2), pySplitSeg_eq (hone w hp'.2),
      pySplitSeg_eq (hone u hq'.2), pySplitSeg_eq (hone r hr'.2)]
  have hparse : cvss2_parse_score
      (strL "CVSS2#AV:" ++ [x] ++ strL "/AC:" ++ [y] ++ strL "/Au:" ++ [z] ++
       strL "/C:" ++ [w] ++ strL "/I:" ++ [u] ++ strL "/A:" ++ [r])
      = [(strL "AV", [x]), (strL "AC", [y]), (strL "Au", [z]),
         (strL "C", [w]), (strL "I", [u]), (strL "A", [r])] := by
    rw [cvss2_parse_score, hpairs,
      dictOfPairs_eq_self (by simp only [List.map_cons, List.map_nil]; decide)]
  rw [hparse]
  have c1 : cvss2_check_definition (toLowerL (strL "AV")) [x] = some dx := by
    rw [(by decide : toLowerL (strL "AV") = strL "av")]; exact hx
  have c2 : cvss2_check_definition (toLowerL (strL "AC")) [y] = some dy := by
    rw [(by decide : toLowerL (strL "AC") = strL "ac")]; exact hy
  have c3 : cvss2_check_definition (toLowerL (strL "Au")) [z] = some dz := by
    rw [(by decide : toLowerL (strL "Au") = strL "au")]; exact hz
  have c4 : cvss2_check_definition (toLowerL (strL "C")) [w] = some dp := by
    rw [(by decide : toLowerL (strL "C") = strL "c")]; exact hp
  have c5 : cvss2_check_definition (toLowerL (strL "I")) [u] = some dq := by
    rw [(by decide : toLowerL (strL "I") = strL "i")]; exact hq
  have c6 : cvss2_check_definition (toLowerL (strL "A")) [r] = some dr := by
    rw [(by decide : toLowerL (strL "A") = strL "a")]; exact hr
  rw [cvss2_determine_metrics]
  simp only [List.foldlM_cons, List.foldlM_nil, c1, c2, c3, c4, c5, c6,
    Option.map_some', Option.bind_eq_bind, Option.some_bind]
  simp +decide [dictInsert]

/-- C8 witness: `CVSS2#AV:N/AC:L/Au:N/C:C/I:C/A:C` resolves `AV` to the
Network definition, `AC` to Low (v2 wording), `Au` to None, and `C`, `I`,
`A` each to the Complete definition of its v2 table. -/
theorem claim8_v2_full_vector_witness :
    cvss2_determine_metrics
      (cvss2_parse_score (strL "CVSS2#AV:N/AC:L/Au:N/C:C/I:C/A:C")) =
    some [(strL "AV",
            "Network (N): The attacker can remotely exploit the vulnerability."),
          (strL "AC",
            "Low (L): Exploiting the vulnerability does not require specilized conditions."),
          (strL "Au",
            "None (N): Attackers do not need to authenticate to exploit the vulnerability."),
          (strL "C",
            "Complete (C): All information on the system is compromised."),
          (strL "I",
            "Complete (C): The integrity of the system is totally compromised, and the attacker may change any information at will."),
          (strL "A",
            "Complete (C): The system is completely shut down.")] :=
  claim8_v2_full_vector 'N' 'L' 'N' 'C' 'C' 'C' _ _ _ _ _ _
    rfl rfl rfl rfl rfl rfl

end Cvss
